import Mathlib

/-! Verification of the vectorized-environment runner specification of the
`tianshou.env` package.

The repository snapshot contains `tianshou/env/__init__.py`, which re-exports
the coordinator variants (`BaseVectorEnv`, `DummyVectorEnv`, `SubprocVectorEnv`,
`ShmemVectorEnv`, `RayVectorEnv`), the wrapper layer (`VectorEnvWrapper`,
`VectorEnvNormObs`) and the gym adapters.  The bodies of those classes
(`venvs.py`, `venv_wrappers.py`, `gym_wrappers.py`) are not part of the
snapshot, so the coordinator, the shared-memory transport and the wrapper are
modelled here from the specification's words; the export surface itself is
embedded directly from `__init__.py`.
-/

namespace TianshouEnv

/-- Modelled from the spec (§6 Environment interface, missing `venvs.py`):
a deterministic stateful environment with `reset(seed)` and `step(action)`.
The state records the seed, how many steps were taken since the last reset
(the "internal step-count" of §8) and the last action received. -/
structure EnvState where
  seed : Nat
  stepCount : Nat
  lastAction : Nat
deriving DecidableEq

/-- Modelled from the spec: `reset` reinitializes the environment. -/
def envReset (seed : Nat) : EnvState :=
  { seed := seed, stepCount := 0, lastAction := 0 }

/-- Modelled from the spec: `step(action)` advances the environment state. -/
def envStep (e : EnvState) (a : Nat) : EnvState :=
  { seed := e.seed, stepCount := e.stepCount + 1, lastAction := a }

/-- Modelled from the spec: the observation the environment reports in its
current state. -/
def envObs (e : EnvState) : List Nat :=
  [e.seed, e.stepCount, e.lastAction]

/-- Modelled from the spec (§3 StepResult): `{observation, reward,
terminated, truncated}` as delivered by one worker for one step. -/
structure StepResult where
  obs : List Nat
  reward : Nat
  terminated : Bool
  truncated : Bool
deriving DecidableEq

instance : Inhabited StepResult :=
  ⟨{ obs := [], reward := 0, terminated := false, truncated := false }⟩

/-- Modelled from the spec: the result a worker returns for `step(a)` taken
from environment state `e`. -/
def mkStepResult (e : EnvState) (a : Nat) : StepResult :=
  let e' := envStep e a
  { obs := envObs e', reward := a, terminated := false, truncated := false }

/-- Modelled from the spec (§3 WorkerState): {Idle, Busy, Closed, Crashed}. -/
inductive WorkerState where
  | Idle
  | Busy
  | Closed
  | Crashed
deriving DecidableEq

/-- Modelled from the spec (§2 Worker): a handle wrapping exactly one
environment instance.  `wid` is the worker's identity fixed at construction
(for the index↔worker binding invariant), `healthy` models whether its
execution channel/process is still alive, and `last` is the worker's
last-known result. -/
structure Worker where
  wid : Nat
  env : EnvState
  state : WorkerState
  healthy : Bool
  last : Option StepResult
deriving DecidableEq

/-- Modelled from the spec (§4.1 Coordinator): owns the pool of N workers and
the closed flag. -/
structure Coordinator where
  workers : List Worker
  isClosed : Bool
deriving DecidableEq

/-- Modelled from the spec (§7 error taxonomy). -/
inductive VEnvError where
  | ArgumentMismatch
  | WorkerFailure (idx : Nat)
  | BufferOverflow (idx : Nat)
  | AlreadyClosed
deriving DecidableEq

instance {ε α : Type} [DecidableEq ε] [DecidableEq α] : DecidableEq (Except ε α) :=
  fun x y =>
    match x, y with
    | .ok a, .ok b =>
        if h : a = b then .isTrue (by rw [h]) else .isFalse (by simp [h])
    | .error a, .error b =>
        if h : a = b then .isTrue (by rw [h]) else .isFalse (by simp [h])
    | .ok _, .error _ => .isFalse (by simp)
    | .error _, .ok _ => .isFalse (by simp)

/-- Property `env_num`: the pool size. -/
def Coordinator.env_num (c : Coordinator) : Nat := c.workers.length

/-- Modelled from the spec (§3 Lifecycle): pool and workers are created
together at coordinator construction; worker `i` owns a fresh environment
seeded with `seed + i` and starts Idle and healthy. -/
def makeCoordinator (n : Nat) (seed : Nat) : Coordinator :=
  { workers := (List.range n).map (fun i =>
      { wid := i, env := envReset (seed + i), state := .Idle,
        healthy := true, last := none }),
    isClosed := false }

/-- Modelled from the spec (§4.2 crash detection): the execution channel of
worker `k` closes unexpectedly / its process exits. -/
def crashChannel (c : Coordinator) (k : Nat) : Coordinator :=
  { c with workers := c.workers.map (fun w =>
      if w.wid = k then { w with healthy := false } else w) }

/-- Whether the worker at position `i` of the pool is healthy. -/
def healthyAt (ws : List Worker) (i : Nat) : Bool :=
  match ws[i]? with
  | some w => w.healthy
  | none => false

/-- Modelled from the spec (§4.1 fan-out): apply the per-index effect `f` to
every worker whose pool position is in `sel`, leaving unaddressed workers
untouched; an addressed worker whose channel is dead transitions to Crashed.
`i` is the pool position of the head of `ws`. -/
def updateSelected (sel : List Nat) (f : Nat → Worker → Worker) :
    Nat → List Worker → List Worker
  | _, [] => []
  | i, w :: ws =>
      (if i ∈ sel then
        (if w.healthy then f i w else { w with state := .Crashed })
      else w) :: updateSelected sel f (i + 1) ws

/-- Modelled from the spec: the effect of a `step` request carrying the
actions of `reqs` on the addressed worker at pool position `i`; the worker
executes one environment step and returns to Idle. -/
def stepEffect (reqs : List (Nat × Nat)) (i : Nat) (w : Worker) : Worker :=
  match reqs.lookup i with
  | some a =>
      { w with env := envStep w.env a, state := .Idle,
               last := some (mkStepResult w.env a) }
  | none => w

/-- Modelled from the spec: the effect of a `reset` request on the addressed
worker at pool position `i`: its environment is reinitialized (keeping its
seed) and it returns to Idle. -/
def resetEffect (_i : Nat) (w : Worker) : Worker :=
  { w with env := envReset w.env.seed, state := .Idle, last := none }

/-- The step result worker `i` responds with, computed from the pre-call
pool `ws` and the dispatched requests `reqs`. -/
def stepResultOf (ws : List Worker) (reqs : List (Nat × Nat)) (i : Nat) :
    StepResult :=
  match ws[i]?, reqs.lookup i with
  | some w, some a => mkStepResult w.env a
  | _, _ => default

/-- The observation worker `i` responds with to a `reset` request. -/
def resetObsOf (ws : List Worker) (i : Nat) : List Nat :=
  match ws[i]? with
  | some w => envObs (envReset w.env.seed)
  | none => []

/-- Modelled from the spec (§4.1): `step(actions, indices?)`.  `sched` is the
order in which the addressed workers happen to complete (any permutation of
the selected indices — it abstracts over the execution strategy and the
per-worker latency); the coordinator gathers the responses in completion
order and reorders them by the input index order before returning.  Returns
the batched result (or the error) together with the post-call coordinator. -/
def step (c : Coordinator) (acts : List Nat) (ids : Option (List Nat))
    (sched : List Nat) : Except VEnvError (List StepResult) × Coordinator :=
  if c.isClosed then (.error .AlreadyClosed, c)
  else
    let sel := ids.getD (List.range c.workers.length)
    if acts.length ≠ sel.length then (.error .ArgumentMismatch, c)
    else
      let reqs := sel.zip acts
      let ws' := updateSelected sel (stepEffect reqs) 0 c.workers
      match sel.find? (fun i => ! healthyAt c.workers i) with
      | some k => (.error (.WorkerFailure k), { c with workers := ws' })
      | none =>
          let gathered := sched.map (fun i => (i, stepResultOf c.workers reqs i))
          (.ok (sel.map (fun i => ((gathered.lookup i).getD default))),
           { c with workers := ws' })

/-- Modelled from the spec (§4.1): `reset(indices?)`.  Blocks until every
selected worker confirms (`sched` is the completion order, any permutation of
the selected indices) and returns observations in ascending index order
matching the selected subset. -/
def reset (c : Coordinator) (ids : Option (List Nat)) (sched : List Nat) :
    Except VEnvError (List (List Nat)) × Coordinator :=
  if c.isClosed then (.error .AlreadyClosed, c)
  else
    let sel := ids.getD (List.range c.workers.length)
    let ws' := updateSelected sel resetEffect 0 c.workers
    match sel.find? (fun i => ! healthyAt c.workers i) with
    | some k => (.error (.WorkerFailure k), { c with workers := ws' })
    | none =>
        let asc := (List.range c.workers.length).filter (fun i => decide (i ∈ sel))
        let gathered := sched.map (fun i => (i, resetObsOf c.workers i))
        (.ok (asc.map (fun i => ((gathered.lookup i).getD []))),
         { c with workers := ws' })

/-- Modelled from the spec (§4.1): `seed(value)` broadcasts to all workers;
worker `i` reseeds its environment with `value + wid`. -/
def seedOp (c : Coordinator) (value : Nat) :
    Except VEnvError Unit × Coordinator :=
  if c.isClosed then (.error .AlreadyClosed, c)
  else
    (.ok (),
     { c with workers := c.workers.map (fun w =>
         { w with env := { w.env with seed := value + w.wid } }) })

/-- Modelled from the spec (§4.1): `render()` broadcasts to all workers and
returns their render outputs; it does not mutate any state. -/
def render (c : Coordinator) : Except VEnvError (List (List Nat)) × Coordinator :=
  if c.isClosed then (.error .AlreadyClosed, c)
  else (.ok (c.workers.map (fun w => envObs w.env)), c)

/-- Modelled from the spec (§4.1): `close()` shuts the pool down; calling it
on an already-closed pool is a no-op, not an error. -/
def close (c : Coordinator) : Coordinator :=
  if c.isClosed then c
  else { workers := c.workers.map (fun w => { w with state := .Closed }),
         isClosed := true }

/-- Base-256 little-endian digits of `n` (at least one digit), written with
explicit fuel so that it is structurally recursive; `fuel > n` suffices. -/
def natToBytesAux : Nat → Nat → List Nat
  | 0, _ => []
  | fuel + 1, n =>
      if n < 256 then [n] else n % 256 :: natToBytesAux fuel (n / 256)

/-- Modelled from the spec (§4.3): the binary serialization of one numeric
observation component into raw bytes. -/
def natToBytes (n : Nat) : List Nat :=
  natToBytesAux (n + 1) n

/-- Modelled from the spec (§4.3): reading a numeric component back from its
little-endian bytes. -/
def bytesToNat (bs : List Nat) : Nat :=
  bs.foldr (fun b acc => b + 256 * acc) 0

/-- Modelled from the spec (§4.3): the binary layout of an observation in a
shared buffer — each component is written as a length byte followed by its
base-256 digits. -/
def encodeObs : List Nat → List Nat
  | [] => []
  | v :: t => (natToBytes v).length :: (natToBytes v ++ encodeObs t)

/-- Decoding an observation from its binary layout, with explicit fuel
(`fuel ≥` number of components suffices; each component consumes at least
its length byte). -/
def decodeObsAux : Nat → List Nat → List Nat
  | 0, _ => []
  | _ + 1, [] => []
  | fuel + 1, len :: rest =>
      bytesToNat (rest.take len) :: decodeObsAux fuel (rest.drop len)

/-- Modelled from the spec (§4.3): the coordinator reads an observation back
out of the raw bytes of a shared buffer. -/
def decodeObs (bs : List Nat) : List Nat :=
  decodeObsAux bs.length bs

/-- Modelled from the spec (§3 Shared buffer): one fixed-size region per
worker; `wid` identifies the owning worker, `capacity` is fixed at
construction, `data` holds the bytes last written. -/
structure ShmBuffer where
  wid : Nat
  capacity : Nat
  data : List Nat
deriving DecidableEq

/-- Modelled from the spec (§4.3): the worker serializes the observation
directly into its buffer; if the payload exceeds the buffer's fixed capacity
the transport fails with a BufferOverflow error rather than silently
truncating. -/
def writeBuffer (buf : ShmBuffer) (payload : List Nat) :
    Except VEnvError ShmBuffer :=
  if buf.capacity < payload.length then .error (.BufferOverflow buf.wid)
  else .ok { buf with data := payload }

/-- Running an environment from `reset(seed)` through a sequence of
actions. -/
def runEnv (seed : Nat) (acts : List Nat) : EnvState :=
  acts.foldl envStep (envReset seed)

/-- Modelled from the spec: the dummy (in-process) variant's observation for
a given seed and action sequence — the environment is called directly. -/
def dummyObs (seed : Nat) (acts : List Nat) : List Nat :=
  envObs (runEnv seed acts)

/-- Modelled from the spec (§4.3): the shared-memory variant's step for one
worker — the worker runs the environment, serializes the observation into
its buffer, and the coordinator reads the buffer back; returns the post-call
buffer and the observation the coordinator read. -/
def shmemObs (seed : Nat) (acts : List Nat) (buf : ShmBuffer) :
    Except VEnvError (ShmBuffer × List Nat) :=
  match writeBuffer buf (encodeObs (envObs (runEnv seed acts))) with
  | .error e => .error e
  | .ok buf' => .ok (buf', decodeObs buf'.data)

/-- Modelled from the spec (§6 Wrapper construction): the normalization
wrapper's recognized configuration options. -/
structure NormConfig where
  clip_obs : ℝ
  epsilon : ℝ
  update_stats : Bool

/-- Modelled from the spec (§3 RunningStats): {count, mean, variance},
owned by the normalization wrapper. -/
structure RunningStats where
  count : ℝ
  mean : ℝ
  variance : ℝ

/-- The empirical mean of a batch. -/
noncomputable def batchMean (b : List ℝ) : ℝ :=
  b.sum / b.length

/-- The empirical (population) variance of a batch. -/
noncomputable def batchVar (b : List ℝ) : ℝ :=
  (b.map (fun x => (x - batchMean b) ^ 2)).sum / b.length

/-- Modelled from the spec (§3): RunningStats is updated incrementally from
a batch of observations, by the standard parallel mean/variance
combination. -/
noncomputable def rsUpdate (rs : RunningStats) (b : List ℝ) : RunningStats :=
  let m : ℝ := b.length
  let tot := rs.count + m
  let delta := batchMean b - rs.mean
  { count := tot,
    mean := rs.mean + delta * m / tot,
    variance := (rs.variance * rs.count + batchVar b * m
      + delta ^ 2 * rs.count * m / tot) / tot }

/-- Clipping to the configured symmetric range `[-c, c]`. -/
noncomputable def clipTo (c x : ℝ) : ℝ :=
  max (-c) (min c x)

/-- Modelled from the spec (§4.5): the normalization wrapper intercepts a
batch of outgoing observations: it updates its RunningStats from the batch
(unless `update_stats` is off) and rewrites each observation as
`(obs - mean) / sqrt(variance + ε)` clipped to the configured range, where
mean and variance are its current running statistics. -/
noncomputable def normStep (cfg : NormConfig) (rs : RunningStats)
    (batch : List ℝ) : RunningStats × List ℝ :=
  let rs' := if cfg.update_stats then rsUpdate rs batch else rs
  (rs',
   batch.map (fun x =>
     clipTo cfg.clip_obs ((x - rs'.mean) / Real.sqrt (rs'.variance + cfg.epsilon))))

/-- Embedded from `src/tianshou/env/__init__.py` lines 3–16: the names the
module binds at top level with its import statements (the statement that
would bind `PettingZooEnv` is commented out in the source). -/
def topLevelBoundNames : List String :=
  ["ContinuousToDiscrete", "MultiDiscreteToDiscrete", "TruncatedAsTerminated",
   "VectorEnvNormObs", "VectorEnvWrapper",
   "BaseVectorEnv", "DummyVectorEnv", "RayVectorEnv", "ShmemVectorEnv",
   "SubprocVectorEnv"]

/-- Embedded from `src/tianshou/env/__init__.py` lines 18–30: the module's
`__all__` export list, in source order; the `PettingZooEnv` entry is
commented out there. -/
def dunderAll : List String :=
  ["BaseVectorEnv", "DummyVectorEnv", "SubprocVectorEnv", "ShmemVectorEnv",
   "RayVectorEnv", "VectorEnvWrapper", "VectorEnvNormObs",
   "ContinuousToDiscrete", "MultiDiscreteToDiscrete", "TruncatedAsTerminated"]

/-- The ten names the claim says form the public surface, in the claim's
order: one coordinator variant per execution strategy plus the wrapper layer
and the three gym adapters. -/
def claimedExports : List String :=
  ["BaseVectorEnv", "DummyVectorEnv", "SubprocVectorEnv", "ShmemVectorEnv",
   "RayVectorEnv", "VectorEnvWrapper", "VectorEnvNormObs",
   "ContinuousToDiscrete", "MultiDiscreteToDiscrete", "TruncatedAsTerminated"]

/-- The index subset a call with optional `ids` addresses: the given subset,
defaulting to all indices. -/
def selOf (c : Coordinator) (ids : Option (List Nat)) : List Nat :=
  ids.getD (List.range c.workers.length)

/-- The observable pool identity of a coordinator: its size (`env_num`) and
the index → worker binding, read off as the pool-ordered list of worker
identities. -/
def poolSig (c : Coordinator) : Nat × List Nat :=
  (c.env_num, c.workers.map Worker.wid)

/- Helper lemmas, shared between claims. -/

theorem lookup_map_self {α : Type} (f : Nat → α) :
    ∀ (l : List Nat) (i : Nat), i ∈ l →
      (l.map (fun j => (j, f j))).lookup i = some (f i) := by
  intro l
  induction l with
  | nil => intro i h; cases h
  | cons a t ih =>
      intro i h
      by_cases hia : i = a
      · subst hia
        simp [List.lookup]
      · rcases List.mem_cons.1 h with h | h
        · exact absurd h hia
        · have hba : (i == a) = false := beq_eq_false_iff_ne.2 hia
          simpa [List.lookup, hba] using ih i h

theorem updateSelected_length (sel : List Nat) (f : Nat → Worker → Worker) :
    ∀ (i : Nat) (ws : List Worker),
      (updateSelected sel f i ws).length = ws.length := by
  intro i ws
  induction ws generalizing i with
  | nil => rfl
  | cons w t ih => simp [updateSelected, ih]

theorem updateSelected_getElem? (sel : List Nat) (f : Nat → Worker → Worker) :
    ∀ (ws : List Worker) (i j : Nat),
      (updateSelected sel f i ws)[j]? = (ws[j]?).map (fun w =>
        if i + j ∈ sel then
          (if w.healthy then f (i + j) w else { w with state := .Crashed })
        else w) := by
  intro ws
  induction ws with
  | nil => intro i j; simp [updateSelected]
  | cons w t ih =>
      intro i j
      cases j with
      | zero => simp [updateSelected]
      | succ j =>
          have := ih (i + 1) j
          simp only [updateSelected, List.getElem?_cons_succ, this]
          have harith : i + (j + 1) = i + 1 + j := by omega
          rw [harith]

theorem updateSelected_frame (sel : List Nat) (f : Nat → Worker → Worker)
    (ws : List Worker) (j : Nat) (hj : j ∉ sel) :
    (updateSelected sel f 0 ws)[j]? = ws[j]? := by
  rw [updateSelected_getElem?]
  simp only [Nat.zero_add]
  cases h : ws[j]? with
  | none => rfl
  | some w => simp [hj]

theorem updateSelected_wid (sel : List Nat) (f : Nat → Worker → Worker)
    (hf : ∀ i w, (f i w).wid = w.wid) :
    ∀ (i : Nat) (ws : List Worker),
      (updateSelected sel f i ws).map Worker.wid = ws.map Worker.wid := by
  intro i ws
  induction ws generalizing i with
  | nil => rfl
  | cons w t ih =>
      simp only [updateSelected, List.map_cons, ih]
      by_cases hmem : i ∈ sel
      · by_cases hh : w.healthy <;> simp [hmem, hh, hf]
      · simp [hmem]

theorem updateSelected_healthy (sel : List Nat) (f : Nat → Worker → Worker)
    (hf : ∀ i w, (f i w).healthy = w.healthy)
    (ws : List Worker) (j : Nat) :
    healthyAt (updateSelected sel f 0 ws) j = healthyAt ws j := by
  simp only [healthyAt, updateSelected_getElem?, Nat.zero_add]
  cases h : ws[j]? with
  | none => rfl
  | some w =>
      by_cases hmem : j ∈ sel
      · by_cases hh : w.healthy <;> simp [hmem, hh, hf]
      · simp [hmem]

theorem find?_unhealthy_none (sel : List Nat) (ws : List Worker)
    (h : ∀ i ∈ sel, healthyAt ws i = true) :
    sel.find? (fun i => ! healthyAt ws i) = none := by
  rw [List.find?_eq_none]
  intro i hi
  simp [h i hi]

theorem find?_unique (p : Nat → Bool) :
    ∀ (l : List Nat) (k : Nat), k ∈ l → p k = true →
      (∀ j ∈ l, p j = true → j = k) → l.find? p = some k := by
  intro l
  induction l with
  | nil => intro k hk; cases hk
  | cons a t ih =>
      intro k hk hpk huniq
      by_cases hpa : p a = true
      · have hak : a = k := huniq a (List.mem_cons_self a t) hpa
        subst hak
        simp [List.find?, hpa]
      · have hka : k ≠ a := by
          intro h; rw [h] at hpk; exact hpa hpk
        have hkt : k ∈ t := by
          rcases List.mem_cons.1 hk with h | h
          · exact absurd h hka
          · exact h
        have hpa' : p a = false := by
          cases h : p a with
          | true => exact absurd h hpa
          | false => rfl
        simp only [List.find?, hpa']
        exact ih k hkt hpk (fun j hj hpj => huniq j (List.mem_cons_of_mem a hj) hpj)

theorem step_ok (c : Coordinator) (acts sel sched : List Nat)
    (hclosed : c.isClosed = false)
    (hlen : acts.length = sel.length)
    (hhealthy : ∀ i ∈ sel, healthyAt c.workers i = true)
    (hperm : sched.Perm sel) :
    step c acts (some sel) sched =
      (.ok (sel.map (stepResultOf c.workers (sel.zip acts))),
       { c with workers :=
           updateSelected sel (stepEffect (sel.zip acts)) 0 c.workers }) := by
  have hfind := find?_unhealthy_none sel c.workers hhealthy
  have hout : sel.map (fun i =>
        (((sched.map (fun j => (j, stepResultOf c.workers (sel.zip acts) j))).lookup
          i).getD default))
      = sel.map (stepResultOf c.workers (sel.zip acts)) := by
    apply List.map_congr_left
    intro i hi
    rw [lookup_map_self _ sched i (hperm.mem_iff.2 hi)]
    rfl
  simp only [step, hclosed, Option.getD_some, hlen, ne_eq, not_true_eq_false,
    if_false, Bool.false_eq_true, hfind, hout]

theorem reset_ok (c : Coordinator) (sel sched : List Nat)
    (hclosed : c.isClosed = false)
    (hhealthy : ∀ i ∈ sel, healthyAt c.workers i = true)
    (hperm : sched.Perm sel) :
    reset c (some sel) sched =
      (.ok (((List.range c.workers.length).filter
          (fun i => decide (i ∈ sel))).map (resetObsOf c.workers)),
       { c with workers := updateSelected sel resetEffect 0 c.workers }) := by
  have hfind := find?_unhealthy_none sel c.workers hhealthy
  have hout : ((List.range c.workers.length).filter
        (fun i => decide (i ∈ sel))).map (fun i =>
        (((sched.map (fun j => (j, resetObsOf c.workers j))).lookup i).getD []))
      = ((List.range c.workers.length).filter
          (fun i => decide (i ∈ sel))).map (resetObsOf c.workers) := by
    apply List.map_congr_left
    intro i hi
    have hisel : i ∈ sel := by
      have := (List.mem_filter.1 hi).2
      simpa using this
    rw [lookup_map_self _ sched i (hperm.mem_iff.2 hisel)]
    rfl
  simp only [reset, hclosed, Option.getD_some, Bool.false_eq_true, if_false,
    hfind, hout]

theorem makeCoordinator_length (n seed : Nat) :
    (makeCoordinator n seed).workers.length = n := by
  simp [makeCoordinator]

theorem makeCoordinator_getElem? (n seed i : Nat) :
    (makeCoordinator n seed).workers[i]? =
      if i < n then
        some { wid := i, env := envReset (seed + i), state := .Idle,
               healthy := true, last := none }
      else none := by
  simp only [makeCoordinator, List.getElem?_map, List.getElem?_range]
  by_cases h : i < n
  · simp [h]
  · simp [h]
    omega

theorem healthyAt_make (n seed i : Nat) (h : i < n) :
    healthyAt (makeCoordinator n seed).workers i = true := by
  simp [healthyAt, makeCoordinator_getElem?, h]

theorem crashChannel_getElem? (c : Coordinator) (k i : Nat) :
    (crashChannel c k).workers[i]? = (c.workers[i]?).map (fun w =>
      if w.wid = k then { w with healthy := false } else w) := by
  simp [crashChannel, List.getElem?_map]

theorem crashChannel_isClosed (c : Coordinator) (k : Nat) :
    (crashChannel c k).isClosed = c.isClosed := rfl

theorem crashed_make_healthyAt (n seed k i : Nat) (hi : i < n) (hik : i ≠ k) :
    healthyAt (crashChannel (makeCoordinator n seed) k).workers i = true := by
  simp [healthyAt, crashChannel_getElem?, makeCoordinator_getElem?, hi, hik]

theorem crashed_make_healthyAt_self (n seed k : Nat) (hk : k < n) :
    healthyAt (crashChannel (makeCoordinator n seed) k).workers k = false := by
  simp [healthyAt, crashChannel_getElem?, makeCoordinator_getElem?, hk]

theorem bytesToNat_natToBytesAux :
    ∀ (fuel n : Nat), n < fuel → bytesToNat (natToBytesAux fuel n) = n := by
  intro fuel
  induction fuel with
  | zero => intro n h; omega
  | succ f ih =>
      intro n h
      by_cases h256 : n < 256
      · simp [natToBytesAux, h256, bytesToNat]
      · have hpos : 0 < n := by omega
        have hlt : n / 256 < n := Nat.div_lt_self hpos (by omega)
        have hfuel : n / 256 < f := by omega
        simp only [natToBytesAux, h256, if_false, bytesToNat, List.foldr_cons]
        have := ih (n / 256) hfuel
        simp only [bytesToNat] at this
        rw [this]
        exact Nat.mod_add_div n 256

theorem bytesToNat_natToBytes (n : Nat) :
    bytesToNat (natToBytes n) = n :=
  bytesToNat_natToBytesAux (n + 1) n (Nat.lt_succ_self n)

theorem length_le_length_encodeObs :
    ∀ (l : List Nat), l.length ≤ (encodeObs l).length := by
  intro l
  induction l with
  | nil => simp [encodeObs]
  | cons v t ih =>
      simp only [encodeObs, List.length_cons, List.length_append]
      omega

theorem decodeObsAux_encodeObs :
    ∀ (l : List Nat) (fuel : Nat), l.length ≤ fuel →
      decodeObsAux fuel (encodeObs l) = l := by
  intro l
  induction l with
  | nil =>
      intro fuel _
      cases fuel <;> simp [encodeObs, decodeObsAux]
  | cons v t ih =>
      intro fuel hfuel
      cases fuel with
      | zero => simp at hfuel
      | succ f =>
          simp only [encodeObs, decodeObsAux]
          rw [List.take_left, List.drop_left, bytesToNat_natToBytes]
          have ht : t.length ≤ f := by
            simp only [List.length_cons] at hfuel
            omega
          rw [ih f ht]

theorem decodeObs_encodeObs (l : List Nat) :
    decodeObs (encodeObs l) = l :=
  decodeObsAux_encodeObs l (encodeObs l).length (length_le_length_encodeObs l)

theorem stepEffect_wid (reqs : List (Nat × Nat)) (i : Nat) (w : Worker) :
    (stepEffect reqs i w).wid = w.wid := by
  unfold stepEffect
  cases reqs.lookup i <;> rfl

theorem stepEffect_healthy (reqs : List (Nat × Nat)) (i : Nat) (w : Worker) :
    (stepEffect reqs i w).healthy = w.healthy := by
  unfold stepEffect
  cases reqs.lookup i <;> rfl

theorem resetEffect_wid (i : Nat) (w : Worker) :
    (resetEffect i w).wid = w.wid := rfl

theorem resetEffect_healthy (i : Nat) (w : Worker) :
    (resetEffect i w).healthy = w.healthy := rfl

theorem lookup_zip_exists :
    ∀ (l acts : List Nat) (j : Nat), j ∈ l → acts.length = l.length →
      ∃ a, (l.zip acts).lookup j = some a := by
  intro l
  induction l with
  | nil => intro acts j hj; cases hj
  | cons x t ih =>
      intro acts j hj hlen
      cases acts with
      | nil => simp at hlen
      | cons a as =>
          by_cases hjx : j = x
          · exact ⟨a, by simp [List.zip, List.lookup, hjx]⟩
          · have hjt : j ∈ t := by
              rcases List.mem_cons.1 hj with h | h
              · exact absurd h hjx
              · exact h
            have hlen' : as.length = t.length := by simpa using hlen
            obtain ⟨b, hb⟩ := ih as j hjt hlen'
            have hbx : (j == x) = false := beq_eq_false_iff_ne.2 hjx
            refine ⟨b, ?_⟩
            simp only [List.zip_cons_cons, List.lookup, hbx]
            exact hb

theorem step_snd (c : Coordinator) (acts : List Nat) (ids : Option (List Nat))
    (sched : List Nat) :
    (step c acts ids sched).2 = c ∨
    (step c acts ids sched).2 =
      { c with workers := updateSelected (selOf c ids) (stepEffect ((selOf c ids).zip acts)) 0 c.workers } := by
  unfold step selOf
  by_cases hclosed : c.isClosed
  · simp [hclosed]
  · simp only [hclosed, Bool.false_eq_true, if_false]
    by_cases hlen : acts.length ≠ (ids.getD (List.range c.workers.length)).length
    · simp [hlen]
    · simp only [hlen, if_false]
      cases hfind : ((ids.getD (List.range c.workers.length)).find?
          (fun i => ! healthyAt c.workers i)) <;> simp [hfind]

theorem reset_snd (c : Coordinator) (ids : Option (List Nat))
    (sched : List Nat) :
    (reset c ids sched).2 = c ∨
    (reset c ids sched).2 =
      { c with workers := updateSelected (selOf c ids) resetEffect 0 c.workers } := by
  unfold reset selOf
  by_cases hclosed : c.isClosed
  · simp [hclosed]
  · simp only [hclosed, Bool.false_eq_true, if_false]
    cases hfind : ((ids.getD (List.range c.workers.length)).find?
        (fun i => ! healthyAt c.workers i)) <;> simp [hfind]

theorem poolSig_update (c : Coordinator) (ws : List Worker)
    (h : ws.map Worker.wid = c.workers.map Worker.wid) :
    poolSig { c with workers := ws } = poolSig c := by
  have hlen : ws.length = c.workers.length := by
    have := congrArg List.length h
    simpa using this
  simp [poolSig, Coordinator.env_num, hlen, h]

theorem clipTo_mem (c x : ℝ) (hc : 0 ≤ c) :
    -c ≤ clipTo c x ∧ clipTo c x ≤ c := by
  constructor
  · exact le_max_left _ _
  · apply max_le
    · linarith
    · exact min_le_left _ _

/- Claim theorems. -/

/-- Claim C1: for every pool size N ≥ 1 and every completion schedule (which
abstracts the execution strategy and per-worker latency), `step` on a set of
selected indices returns its batched results in the same index order as the
input indices, and `reset` returns observations in ascending index order
matching the selected subset — both independent of the order in which
individual workers complete (`sched` does not occur in the right-hand
sides). -/
theorem step_reset_return_input_index_order (n seed : Nat)
    (acts ids sched : List Nat) (_hn : 1 ≤ n)
    (hids : ∀ i ∈ ids, i < n)
    (hlen : acts.length = ids.length)
    (hperm : sched.Perm ids) :
    (step (makeCoordinator n seed) acts (some ids) sched).1 =
      .ok (ids.map (stepResultOf (makeCoordinator n seed).workers (ids.zip acts))) ∧
    (reset (makeCoordinator n seed) (some ids) sched).1 =
      .ok (((List.range n).filter (fun i => decide (i ∈ ids))).map
        (resetObsOf (makeCoordinator n seed).workers)) := by
  have hhealthy : ∀ i ∈ ids, healthyAt (makeCoordinator n seed).workers i = true :=
    fun i hi => healthyAt_make n seed i (hids i hi)
  constructor
  · rw [step_ok _ _ _ _ rfl hlen hhealthy hperm]
  · rw [reset_ok _ _ _ rfl hhealthy hperm, makeCoordinator_length]

/-- Witness for C1 at N = 3, indices [2, 0], a completion schedule that
finishes worker 0 first. -/
theorem step_reset_return_input_index_order_witness :
    (1 ≤ 3 ∧ (∀ i ∈ [2, 0], i < 3) ∧ [7, 8].length = [2, 0].length ∧
      List.Perm [0, 2] [2, 0]) ∧
    (step (makeCoordinator 3 100) [7, 8] (some [2, 0]) [0, 2]).1 =
      .ok ([2, 0].map (stepResultOf (makeCoordinator 3 100).workers
        ([2, 0].zip [7, 8]))) ∧
    (reset (makeCoordinator 3 100) (some [2, 0]) [0, 2]).1 =
      .ok (((List.range 3).filter (fun i => decide (i ∈ [2, 0]))).map
        (resetObsOf (makeCoordinator 3 100).workers)) :=
  ⟨⟨by omega, by decide, by decide, by decide⟩,
   step_reset_return_input_index_order 3 100 [7, 8] [2, 0] [0, 2]
     (by omega) (by decide) (by decide) (by decide)⟩

/-- Claim C2: `step` with `len(actions) ≠ len(indices)` on an open pool fails
with ArgumentMismatch and returns the coordinator completely unchanged — no
dispatch happens, so no environment's step counter advances. -/
theorem step_argument_mismatch (c : Coordinator) (acts ids sched : List Nat)
    (hclosed : c.isClosed = false)
    (hlen : acts.length ≠ ids.length) :
    step c acts (some ids) sched = (.error .ArgumentMismatch, c) := by
  simp [step, hclosed, hlen]

/-- Witness for C2: one action for two indices. -/
theorem step_argument_mismatch_witness :
    ((makeCoordinator 2 0).isClosed = false ∧ [5].length ≠ [0, 1].length) ∧
    step (makeCoordinator 2 0) [5] (some [0, 1]) [0, 1] =
      (.error .ArgumentMismatch, makeCoordinator 2 0) :=
  ⟨⟨rfl, by decide⟩,
   step_argument_mismatch (makeCoordinator 2 0) [5] [0, 1] [0, 1] rfl (by decide)⟩

/-- Claim C8: a step through the shared-memory transport whose serialized
observation exceeds the buffer's fixed capacity fails that worker's call
with BufferOverflow naming the owning worker; and the transport never
truncates — whenever the call succeeds, the buffer holds the complete
serialized observation. -/
theorem shmem_overflow_no_truncation (seed : Nat) (acts : List Nat)
    (buf : ShmBuffer) :
    (buf.capacity < (encodeObs (envObs (runEnv seed acts))).length →
      shmemObs seed acts buf = .error (.BufferOverflow buf.wid)) ∧
    (∀ buf' obs, shmemObs seed acts buf = .ok (buf', obs) →
      buf'.data = encodeObs (envObs (runEnv seed acts))) := by
  constructor
  · intro h
    simp [shmemObs, writeBuffer, h]
  · intro buf' obs h
    by_cases hcap : buf.capacity < (encodeObs (envObs (runEnv seed acts))).length
    · simp [shmemObs, writeBuffer, hcap] at h
    · simp [shmemObs, writeBuffer, hcap] at h
      rw [← h.1]

/-- Witness for C8: observation [1, 1, 2] serializes to six bytes; a
three-byte buffer overflows, an eight-byte buffer stores all six bytes. -/
theorem shmem_overflow_no_truncation_witness :
    ((ShmBuffer.mk 0 3 []).capacity <
        (encodeObs (envObs (runEnv 1 [2]))).length ∧
      shmemObs 1 [2] (ShmBuffer.mk 0 3 []) = .error (.BufferOverflow 0)) ∧
    (shmemObs 1 [2] (ShmBuffer.mk 0 8 []) =
        .ok (ShmBuffer.mk 0 8 [1, 1, 1, 1, 1, 2], [1, 1, 2]) ∧
      (ShmBuffer.mk 0 8 [1, 1, 1, 1, 1, 2]).data =
        encodeObs (envObs (runEnv 1 [2]))) :=
  ⟨⟨by decide, (shmem_overflow_no_truncation 1 [2] (ShmBuffer.mk 0 3 [])).1 (by decide)⟩,
   ⟨by decide, (shmem_overflow_no_truncation 1 [2] (ShmBuffer.mk 0 8 [])).2
      (ShmBuffer.mk 0 8 [1, 1, 1, 1, 1, 2]) [1, 1, 2] (by decide)⟩⟩

/-- Claim C9: for every seed and action sequence (and any buffer large
enough to hold the serialized observation), the observation the coordinator
reads back from the shared-memory transport is byte-identical to the
observation the dummy in-process variant produces for the same seed and
action sequence. -/
theorem shmem_matches_dummy (seed : Nat) (acts : List Nat) (buf : ShmBuffer)
    (hcap : (encodeObs (dummyObs seed acts)).length ≤ buf.capacity) :
    shmemObs seed acts buf =
      .ok ({ buf with data := encodeObs (dummyObs seed acts) },
           dummyObs seed acts) := by
  have hnot : ¬ buf.capacity < (encodeObs (envObs (runEnv seed acts))).length := by
    simp only [dummyObs] at hcap
    omega
  simp [shmemObs, writeBuffer, hnot, dummyObs, decodeObs_encodeObs]

/-- Witness for C9 at seed 3, actions [4, 5], a 16-byte buffer. -/
theorem shmem_matches_dummy_witness :
    (encodeObs (dummyObs 3 [4, 5])).length ≤ (ShmBuffer.mk 2 16 []).capacity ∧
    shmemObs 3 [4, 5] (ShmBuffer.mk 2 16 []) =
      .ok ({ ShmBuffer.mk 2 16 [] with data := encodeObs (dummyObs 3 [4, 5]) },
           dummyObs 3 [4, 5]) :=
  ⟨by decide, shmem_matches_dummy 3 [4, 5] (ShmBuffer.mk 2 16 []) (by decide)⟩

/-- Claim C10: every name in the module's `__all__` list is bound by a
top-level import of `tianshou/env/__init__.py`, and the exported set is
exactly the ten claimed names — in particular `PettingZooEnv` is not
exported. -/
theorem export_surface_exact :
    dunderAll.all (fun s => decide (s ∈ topLevelBoundNames)) = true ∧
    dunderAll = claimedExports ∧
    decide (("PettingZooEnv" : String) ∈ dunderAll) = false ∧
    dunderAll.Nodup :=
  ⟨by decide, rfl, by decide, by decide⟩

/-- Claim C4: `reset` and `step` addressed to a subset of indices leave
every worker outside the subset exactly as it was — environment state, worker
state, health and last-known result all unchanged (the whole worker record
at an unaddressed position is preserved). -/
theorem unaddressed_workers_untouched (c : Coordinator)
    (acts ids sched : List Nat) (j : Nat) (hj : j ∉ ids) :
    ((reset c (some ids) sched).2).workers[j]? = c.workers[j]? ∧
    ((step c acts (some ids) sched).2).workers[j]? = c.workers[j]? := by
  constructor
  · rcases reset_snd c (some ids) sched with h | h
    · rw [h]
    · rw [h]
      exact updateSelected_frame ids _ c.workers j hj
  · rcases step_snd c acts (some ids) sched with h | h
    · rw [h]
    · rw [h]
      exact updateSelected_frame ids _ c.workers j hj

/-- Witness for C4: worker 1 is untouched by a call addressing [0, 2]. -/
theorem unaddressed_workers_untouched_witness :
    (1 ∉ [0, 2]) ∧
    ((reset (makeCoordinator 3 0) (some [0, 2]) [2, 0]).2).workers[1]? =
      (makeCoordinator 3 0).workers[1]? ∧
    ((step (makeCoordinator 3 0) [4, 6] (some [0, 2]) [2, 0]).2).workers[1]? =
      (makeCoordinator 3 0).workers[1]? :=
  ⟨by decide,
   unaddressed_workers_untouched (makeCoordinator 3 0) [4, 6] [0, 2] [2, 0] 1
     (by decide)⟩

/-- Claim C5: every operation — `reset`, `step`, `seed`, `render` — preserves
the pool size `env_num` and the index ↔ worker binding (the pool-ordered
list of worker identities): no worker is added, removed or rebound. -/
theorem pool_binding_fixed (c : Coordinator) (acts : List Nat)
    (ids : Option (List Nat)) (sched : List Nat) (value : Nat) :
    poolSig (reset c ids sched).2 = poolSig c ∧
    poolSig (step c acts ids sched).2 = poolSig c ∧
    poolSig (seedOp c value).2 = poolSig c ∧
    poolSig (render c).2 = poolSig c := by
  refine ⟨?_, ?_, ?_, ?_⟩
  · rcases reset_snd c ids sched with h | h
    · rw [h]
    · rw [h]
      exact poolSig_update c _
        (updateSelected_wid _ _ resetEffect_wid 0 c.workers)
  · rcases step_snd c acts ids sched with h | h
    · rw [h]
    · rw [h]
      exact poolSig_update c _
        (updateSelected_wid _ _ (stepEffect_wid _) 0 c.workers)
  · by_cases hclosed : c.isClosed
    · simp [seedOp, hclosed]
    · simp only [seedOp, hclosed, Bool.false_eq_true, if_false]
      apply poolSig_update
      simp [List.map_map, Function.comp]
  · by_cases hclosed : c.isClosed
    · simp [render, hclosed]
    · simp [render, hclosed]

/-- Claim C6: `close` on an already-closed pool is a no-op (so `close` is
idempotent and raises no error), while `step`, `reset`, `seed` and `render`
on a closed pool all fail with AlreadyClosed and change nothing. -/
theorem close_idempotent_closed_pool_rejects (c : Coordinator)
    (acts : List Nat) (ids : Option (List Nat)) (sched : List Nat)
    (value : Nat) :
    close (close c) = close c ∧
    (c.isClosed = true →
      close c = c ∧
      step c acts ids sched = (.error .AlreadyClosed, c) ∧
      reset c ids sched = (.error .AlreadyClosed, c) ∧
      seedOp c value = (.error .AlreadyClosed, c) ∧
      render c = (.error .AlreadyClosed, c)) := by
  constructor
  · by_cases hclosed : c.isClosed
    · simp [close, hclosed]
    · simp [close, hclosed]
  · intro hclosed
    exact ⟨by simp [close, hclosed], by simp [step, hclosed],
      by simp [reset, hclosed], by simp [seedOp, hclosed],
      by simp [render, hclosed]⟩

/-- Witness for C6 on a freshly closed two-worker pool. -/
theorem close_idempotent_closed_pool_rejects_witness :
    (close (makeCoordinator 2 5)).isClosed = true ∧
    close (close (makeCoordinator 2 5)) = close (makeCoordinator 2 5) ∧
    step (close (makeCoordinator 2 5)) [3, 4] none [0, 1] =
      (.error .AlreadyClosed, close (makeCoordinator 2 5)) :=
  ⟨by decide,
   ((close_idempotent_closed_pool_rejects (close (makeCoordinator 2 5))
      [3, 4] none [0, 1] 0).2 (by decide)).1,
   (((close_idempotent_closed_pool_rejects (close (makeCoordinator 2 5))
      [3, 4] none [0, 1] 0).2 (by decide)).2).1⟩

theorem crashed_make_getElem? (n seed k j : Nat) (hj : j < n) (hjk : j ≠ k) :
    (crashChannel (makeCoordinator n seed) k).workers[j]? =
      some { wid := j, env := envReset (seed + j), state := .Idle,
             healthy := true, last := none } := by
  rw [crashChannel_getElem?, makeCoordinator_getElem?]
  simp [hj, hjk]

/-- Claim C3: with exactly one worker `k` whose channel has failed, a
full-pool `step` surfaces WorkerFailure identifying index `k` (no result
batch — hence no placeholder data — is returned for the call), every other
addressed worker ends the call in state Idle, and a subsequent `step`
addressed to the healthy workers answers correctly (with the batched results
in input index order). -/
theorem single_worker_failure_isolated (n seed k : Nat)
    (acts acts₂ sched sched₂ : List Nat)
    (hk : k < n)
    (hacts : acts.length = n)
    (_hsched : sched.Perm (List.range n))
    (hacts₂ : acts₂.length =
      ((List.range n).filter (fun i => decide (i ≠ k))).length)
    (hsched₂ : sched₂.Perm ((List.range n).filter (fun i => decide (i ≠ k)))) :
    (step (crashChannel (makeCoordinator n seed) k) acts
        (some (List.range n)) sched).1 = .error (.WorkerFailure k) ∧
    (∀ j, j < n → j ≠ k →
      ∃ w, ((step (crashChannel (makeCoordinator n seed) k) acts
          (some (List.range n)) sched).2).workers[j]? = some w ∧
        w.state = .Idle) ∧
    (step ((step (crashChannel (makeCoordinator n seed) k) acts
          (some (List.range n)) sched).2) acts₂
        (some ((List.range n).filter (fun i => decide (i ≠ k)))) sched₂).1 =
      .ok (((List.range n).filter (fun i => decide (i ≠ k))).map
        (stepResultOf ((step (crashChannel (makeCoordinator n seed) k) acts
            (some (List.range n)) sched).2).workers
          (((List.range n).filter (fun i => decide (i ≠ k))).zip acts₂))) := by
  have hclosed : (crashChannel (makeCoordinator n seed) k).isClosed = false := rfl
  have hlen : acts.length = (List.range n).length := by simp [hacts]
  have hfind : (List.range n).find?
      (fun i => ! healthyAt (crashChannel (makeCoordinator n seed) k).workers i)
      = some k := by
    apply find?_unique
    · exact List.mem_range.2 hk
    · rw [crashed_make_healthyAt_self n seed k hk]
      rfl
    · intro j hj hpj
      by_contra hjk
      rw [crashed_make_healthyAt n seed k j (List.mem_range.1 hj) hjk] at hpj
      simp at hpj
  have hstep_eq : step (crashChannel (makeCoordinator n seed) k) acts
      (some (List.range n)) sched =
      (.error (.WorkerFailure k),
       { crashChannel (makeCoordinator n seed) k with workers := updateSelected (List.range n) (stepEffect ((List.range n).zip acts)) 0 (crashChannel (makeCoordinator n seed) k).workers }) := by
    simp [step, hclosed, hlen, hfind]
  refine ⟨?_, ?_, ?_⟩
  · rw [hstep_eq]
  · intro j hjn hjk
    rw [hstep_eq]
    dsimp only
    rw [updateSelected_getElem?, crashed_make_getElem? n seed k j hjn hjk]
    have hjr : j ∈ List.range n := List.mem_range.2 hjn
    obtain ⟨a, ha⟩ := lookup_zip_exists (List.range n) acts j hjr (by simp [hacts])
    refine ⟨stepEffect ((List.range n).zip acts) j
      { wid := j, env := envReset (seed + j), state := .Idle,
        healthy := true, last := none }, ?_, ?_⟩
    · simp [hjr]
    · simp [stepEffect, ha]
  · have hhealthy₂ : ∀ i ∈ (List.range n).filter (fun i => decide (i ≠ k)),
        healthyAt (updateSelected (List.range n)
          (stepEffect ((List.range n).zip acts)) 0
          (crashChannel (makeCoordinator n seed) k).workers) i = true := by
      intro i hi
      have hmem := List.mem_filter.1 hi
      have hin : i < n := List.mem_range.1 hmem.1
      have hik : i ≠ k := by simpa using hmem.2
      rw [updateSelected_healthy _ _ (stepEffect_healthy _) _ i]
      exact crashed_make_healthyAt n seed k i hin hik
    rw [hstep_eq]
    dsimp only
    rw [step_ok _ _ _ _ rfl hacts₂ hhealthy₂ hsched₂]

/-- Witness for C3 at N = 4 with worker 2 crashed. -/
theorem single_worker_failure_isolated_witness :
    (2 < 4 ∧ ([1, 2, 3, 4] : List Nat).length = 4 ∧
      List.Perm [3, 1, 0, 2] (List.range 4) ∧
      ([7, 8, 9] : List Nat).length =
        ((List.range 4).filter (fun i => decide (i ≠ 2))).length ∧
      List.Perm [3, 0, 1] ((List.range 4).filter (fun i => decide (i ≠ 2)))) ∧
    ((step (crashChannel (makeCoordinator 4 0) 2) [1, 2, 3, 4]
        (some (List.range 4)) [3, 1, 0, 2]).1 = .error (.WorkerFailure 2) ∧
    (∀ j, j < 4 → j ≠ 2 →
      ∃ w, ((step (crashChannel (makeCoordinator 4 0) 2) [1, 2, 3, 4]
          (some (List.range 4)) [3, 1, 0, 2]).2).workers[j]? = some w ∧
        w.state = .Idle) ∧
    (step ((step (crashChannel (makeCoordinator 4 0) 2) [1, 2, 3, 4]
          (some (List.range 4)) [3, 1, 0, 2]).2) [7, 8, 9]
        (some ((List.range 4).filter (fun i => decide (i ≠ 2)))) [3, 0, 1]).1 =
      .ok (((List.range 4).filter (fun i => decide (i ≠ 2))).map
        (stepResultOf ((step (crashChannel (makeCoordinator 4 0) 2) [1, 2, 3, 4]
            (some (List.range 4)) [3, 1, 0, 2]).2).workers
          (((List.range 4).filter (fun i => decide (i ≠ 2))).zip [7, 8, 9])))) :=
  ⟨⟨by decide, by decide, by decide, by decide, by decide⟩,
   single_worker_failure_isolated 4 0 2 [1, 2, 3, 4] [7, 8, 9]
     [3, 1, 0, 2] [3, 0, 1] (by decide) (by decide) (by decide) (by decide)
     (by decide)⟩

/-- Claim C7: the normalization wrapper updates its RunningStats from the
batch exactly when `update_stats` is set (leaving them unchanged otherwise),
and every outgoing observation equals `(obs - mean) / sqrt(variance + ε)`
clipped to the configured range, where mean and variance are the wrapper's
current (post-update) running statistics; in particular every outgoing
observation lies within `[-clip_obs, clip_obs]`. -/
theorem norm_wrapper_update_and_formula (cfg : NormConfig)
    (rs : RunningStats) (batch : List ℝ) (hclip : 0 ≤ cfg.clip_obs) :
    (normStep cfg rs batch).1 =
      (if cfg.update_stats then rsUpdate rs batch else rs) ∧
    (normStep cfg rs batch).2 = batch.map (fun x =>
      clipTo cfg.clip_obs ((x - (normStep cfg rs batch).1.mean) /
        Real.sqrt ((normStep cfg rs batch).1.variance + cfg.epsilon))) ∧
    ∀ y ∈ (normStep cfg rs batch).2, -cfg.clip_obs ≤ y ∧ y ≤ cfg.clip_obs := by
  refine ⟨rfl, rfl, ?_⟩
  intro y hy
  simp only [normStep, List.mem_map] at hy
  obtain ⟨x, _, hxy⟩ := hy
  rw [← hxy]
  exact clipTo_mem _ _ hclip

/-- Witness for C7 with clip range 1, ε = 1, updates on, batch [0]. -/
theorem norm_wrapper_update_and_formula_witness :
    0 ≤ (NormConfig.mk 1 1 true).clip_obs ∧
    ((normStep (NormConfig.mk 1 1 true) (RunningStats.mk 0 0 0) [0]).1 =
      (if (NormConfig.mk 1 1 true).update_stats then
        rsUpdate (RunningStats.mk 0 0 0) [0] else RunningStats.mk 0 0 0) ∧
    (normStep (NormConfig.mk 1 1 true) (RunningStats.mk 0 0 0) [0]).2 =
      ([0] : List ℝ).map (fun x =>
        clipTo (NormConfig.mk 1 1 true).clip_obs
          ((x - (normStep (NormConfig.mk 1 1 true) (RunningStats.mk 0 0 0) [0]).1.mean) /
            Real.sqrt ((normStep (NormConfig.mk 1 1 true)
              (RunningStats.mk 0 0 0) [0]).1.variance +
              (NormConfig.mk 1 1 true).epsilon))) ∧
    ∀ y ∈ (normStep (NormConfig.mk 1 1 true) (RunningStats.mk 0 0 0) [0]).2,
      -(NormConfig.mk 1 1 true).clip_obs ≤ y ∧
        y ≤ (NormConfig.mk 1 1 true).clip_obs) :=
  ⟨zero_le_one,
   norm_wrapper_update_and_formula (NormConfig.mk 1 1 true)
     (RunningStats.mk 0 0 0) [0] zero_le_one⟩

end TianshouEnv
